import Mathlib

/-!
Shallow embedding of `src/index.js` (SLCSP resolver).

JavaScript numbers are idealised as exact rationals, with `NaN` modelled
as `none` (`Option ℚ`); `parseInt` results are integers-or-NaN (`Option ℤ`).
JS objects are insertion-ordered association lists with string keys, with
`Object.entries` reordering integer-like keys first in ascending numeric
order, as the ECMAScript own-property-key order prescribes.  JS `Set`s are
insertion-ordered duplicate-free lists under SameValueZero equality, which
on our value types coincides with structural equality.  The fallible file
reads of `main` are modelled with `Except`.
-/

/-- A JS number produced by `parseInt`: an integer, or NaN (`none`). -/
abbrev JSInt := Option ℤ

/-- A JS number produced by `parseFloat`: a rational, or NaN (`none`). -/
abbrev JSNum := Option ℚ

/-- Value of a digit string, most significant first. -/
def digitsToNat (cs : List Char) : ℕ :=
  cs.foldl (fun n c => 10 * n + (c.toNat - 48)) 0

/-- `parseInt(s)` (radix 10): optional sign, then the longest digit run;
NaN when there is no digit.  Whitespace trimming and hex forms of the
full JS semantics do not arise in this CSV domain and are omitted. -/
def parseIntJS (s : String) : JSInt :=
  let (neg, cs) :=
    match s.data with
    | '-' :: rest => (true, rest)
    | '+' :: rest => (false, rest)
    | cs => (false, cs)
  let ds := cs.takeWhile Char.isDigit
  if ds.isEmpty then none
  else some (if neg then -(digitsToNat ds : ℤ) else (digitsToNat ds : ℤ))

/-- `parseFloat(s)`: optional sign, digits, optional `.` and fraction
digits, parsed as the longest numeric literal starting the string; NaN
when no digit is found.  Exponent forms and whitespace trimming of the
full JS semantics do not arise in this CSV domain and are omitted. -/
def parseFloatJS (s : String) : JSNum :=
  let (neg, cs) :=
    match s.data with
    | '-' :: rest => (true, rest)
    | '+' :: rest => (false, rest)
    | cs => (false, cs)
  let intDigits := cs.takeWhile Char.isDigit
  let rest := cs.dropWhile Char.isDigit
  let fracDigits :=
    match rest with
    | '.' :: r => r.takeWhile Char.isDigit
    | _ => []
  if intDigits.isEmpty && fracDigits.isEmpty then none
  else
    let n : ℤ := digitsToNat intDigits * 10 ^ fracDigits.length + digitsToNat fracDigits
    some (mkRat (if neg then -n else n) (10 ^ fracDigits.length))

/-- `String(n)` for a `parseInt` result: the property key a JS number
becomes when used to index an object (`data[area]`). -/
def jsIntKey : JSInt → String
  | none => "NaN"
  | some n => if n < 0 then "-" ++ Nat.repr n.natAbs else Nat.repr n.natAbs

/-- `Set.prototype.add` under SameValueZero: keep insertion order, add at
the end only when the value is not yet present. -/
def setAdd {β : Type} [DecidableEq β] (s : List β) (v : β) : List β :=
  if v ∈ s then s else s ++ [v]

/-- A JS object: insertion-ordered association list with string keys. -/
structure JSObject (α : Type) where
  entries : List (String × α)
deriving DecidableEq

/-- Property lookup `o[k]`: the first entry with key `k`. -/
def getEntries {α : Type} : List (String × α) → String → Option α
  | [], _ => none
  | e :: es, k => if e.1 = k then some e.2 else getEntries es k

def JSObject.get {α : Type} (o : JSObject α) (k : String) : Option α :=
  getEntries o.entries k

/-- Property assignment `o[k] = v`: overwrite in place when the key
exists (its position is kept), otherwise append a new entry. -/
def setEntries {α : Type} : List (String × α) → String → α → List (String × α)
  | [], k, v => [(k, v)]
  | e :: es, k, v => if e.1 = k then (k, v) :: es else e :: setEntries es k v

def JSObject.set {α : Type} (o : JSObject α) (k : String) (v : α) : JSObject α :=
  ⟨setEntries o.entries k v⟩

def emptyObj {α : Type} : JSObject α := ⟨[]⟩

/-- Whether a string is a canonical array-index property key (all digits,
no superfluous leading zero, below 2^32 - 1): such keys are enumerated
first, in ascending numeric order, by `Object.entries`. -/
def isArrayIndexKey (s : String) : Bool :=
  !s.data.isEmpty && s.data.all Char.isDigit &&
    (s = "0" || s.data.head? ≠ some '0') && digitsToNat s.data < 4294967295

def insertByKeyNum {α : Type} (e : String × α) :
    List (String × α) → List (String × α)
  | [] => [e]
  | f :: fs =>
    if digitsToNat e.1.data ≤ digitsToNat f.1.data then e :: f :: fs
    else f :: insertByKeyNum e fs

def sortByKeyNum {α : Type} : List (String × α) → List (String × α)
  | [] => []
  | e :: es => insertByKeyNum e (sortByKeyNum es)

/-- `Object.entries(o)`: array-index keys in ascending numeric order
first, then the remaining string keys in insertion order. -/
def entriesJS {α : Type} (o : JSObject α) : List (String × α) :=
  sortByKeyNum (o.entries.filter (fun e => isArrayIndexKey e.1)) ++
    o.entries.filter (fun e => !isArrayIndexKey e.1)

/-- The comparator `(a, b) => a - b` as a "sorts before or equal"
test: on numbers it is numeric order; when NaN is involved the
comparator returns NaN, which `Array.prototype.sort` treats as `+0`,
i.e. as "equal", so either side may stay first. -/
def leJS : JSNum → JSNum → Bool
  | some a, some b => a ≤ b
  | _, _ => true

def insertRate (a : JSNum) : List JSNum → List JSNum
  | [] => [a]
  | b :: bs => if leJS a b then a :: b :: bs else b :: insertRate a bs

/-- `Array.from(set).sort((a, b) => a - b)`, modelled as an insertion
sort by the comparator (the exact order among NaN ties is
implementation-defined in ECMAScript; on numeric inputs this is the
unique ascending order). -/
def sortRates : List JSNum → List JSNum
  | [] => []
  | a :: as => insertRate a (sortRates as)

/-- A row of the plans CSV, projected to the fields `parsePlans` reads. -/
structure PlanRow where
  metal_level : String
  rate : String
  rate_area : String
deriving DecidableEq

/-- A row of the zips CSV, projected to the fields `parseZips` reads. -/
structure ZipRow where
  zipcode : String
  rate_area : String
deriving DecidableEq

/-- A row of the SLCSP request CSV, projected to the field read. -/
structure SlcspRow where
  zipcode : String
deriving DecidableEq

/-- One row of `parsePlans`: skip non-Silver rows; otherwise add the
parsed rate to the set stored under the parsed rate area (creating an
empty set first when the key is absent). -/
def planStep (data : JSObject (List JSNum)) (row : PlanRow) :
    JSObject (List JSNum) :=
  if row.metal_level = "Silver" then
    let area := parseIntJS row.rate_area
    let parsedRate := parseFloatJS row.rate
    let k := jsIntKey area
    data.set k (setAdd ((data.get k).getD []) parsedRate)
  else data

/-- `parsePlans`: fold the plans rows into the rate-area index. -/
def parsePlans (rows : List PlanRow) : JSObject (List JSNum) :=
  rows.foldl planStep emptyObj

/-- One row of `parseZips`: add the parsed rate area to the set stored
under the zipcode string. -/
def zipStep (data : JSObject (List JSInt)) (row : ZipRow) :
    JSObject (List JSInt) :=
  data.set row.zipcode (setAdd ((data.get row.zipcode).getD []) (parseIntJS row.rate_area))

/-- `parseZips`: fold the zips rows into the zip locality index. -/
def parseZips (rows : List ZipRow) : JSObject (List JSInt) :=
  rows.foldl zipStep emptyObj

/-- `preprocessPlanRates`: replace every value of the plan index by the
sorted array of its set (keys and their order are unchanged). -/
def preprocessPlanRates (planData : JSObject (List JSNum)) : JSObject (List JSNum) :=
  ⟨planData.entries.map (fun e => (e.1, sortRates e.2))⟩

/-- Two zero-padded decimal digits (the fraction part of `toFixed(2)`). -/
def pad2 (n : ℕ) : String :=
  ⟨[Nat.digitChar (n / 10 % 10), Nat.digitChar (n % 10)]⟩

/-- `(n / d).toFixed(2)` for the non-negative rational `n / d` (`d > 0`):
the integer `m` closest to `100 * n / d` — ties to the larger, so
`m = ⌊100 * (n / d) + 1 / 2⌋ = (200 * n + d) / (2 * d)` in `ℕ` — printed
as `m / 100`, a point, and two zero-padded fraction digits. -/
def toFixedAbs (n d : ℕ) : String :=
  let m := (200 * n + d) / (2 * d)
  Nat.repr (m / 100) ++ "." ++ pad2 (m % 100)

/-- `Number.prototype.toFixed(2)`: "NaN" on NaN, otherwise a sign and
the rendering of the absolute value (the ECMAScript algorithm rounds the
absolute value and prepends "-" for negative numbers). -/
def toFixed2 : JSNum → String
  | none => "NaN"
  | some q =>
    if q.num < 0 then "-" ++ toFixedAbs q.num.natAbs q.den
    else toFixedAbs q.num.natAbs q.den

/-- The per-zipcode resolution of `processSLCSP`: a rate string when the
zipcode maps to exactly one rate area whose sorted rate array has more
than one entry, and the `-1` sentinel (`none`) otherwise. -/
def resolveZip (planData : JSObject (List JSNum)) (zipData : JSObject (List JSInt))
    (zipcode : String) : Option String :=
  match zipData.get zipcode with
  | some [rateArea] =>
    match planData.get (jsIntKey rateArea) with
    | some rates =>
      if 1 < rates.length then some (toFixed2 (rates.getD 1 none)) else none
    | none => none
  | _ => none

/-- `processSLCSP`'s accumulated object: `data[zipcode] = rate` for each
request row in order (a repeated zipcode overwrites its entry in place). -/
def processSLCSP (rows : List SlcspRow) (planData : JSObject (List JSNum))
    (zipData : JSObject (List JSInt)) : JSObject (Option String) :=
  rows.foldl (fun data row => data.set row.zipcode (resolveZip planData zipData row.zipcode))
    emptyObj

/-- The `console.log` lines `processSLCSP` emits: a header, then one
line per request row in request order. -/
def slcspLogLines (rows : List SlcspRow) (planData : JSObject (List JSNum))
    (zipData : JSObject (List JSInt)) : List String :=
  "zipcode, rate" ::
    rows.map (fun row =>
      row.zipcode ++ ", " ++ (resolveZip planData zipData row.zipcode).getD "")

/-- `writeCSVFile`: the byte content written to the output file — the
header and one line per `Object.entries` entry, joined by newlines
(no trailing newline). -/
def writeCSVFile (data : JSObject (Option String)) : String :=
  String.intercalate "\n"
    ("zipcode,rate" :: (entriesJS data).map (fun e => e.1 ++ "," ++ e.2.getD ""))

/-- Outcome of one run of `main`: either the output file's content was
written, or the caught error was reported on the error channel and no
output file was produced. -/
inductive RunOutcome where
  | written (content : String)
  | errorLogged (msg : String)
deriving DecidableEq

/-- `main` of the source, as the pure function `mainRun`: read the three inputs (each read may fail), build the two
indexes, freeze-and-sort the plan index, resolve the requests, write the
output; any failure is caught, logged to the error channel, and aborts
before the write. -/
def mainRun (plansIn : Except String (List PlanRow)) (zipsIn : Except String (List ZipRow))
    (slcspIn : Except String (List SlcspRow)) : RunOutcome :=
  match plansIn with
  | .error e => .errorLogged e
  | .ok planRows =>
    match zipsIn with
    | .error e => .errorLogged e
    | .ok zipRows =>
      match slcspIn with
      | .error e => .errorLogged e
      | .ok requestRows =>
        let silverPlanData := preprocessPlanRates (parsePlans planRows)
        let zipRateAreaData := parseZips zipRows
        .written (writeCSVFile (processSLCSP requestRows silverPlanData zipRateAreaData))

/-- Strict numeric comparison of JS numbers (false whenever NaN is involved). -/
def ltJS : JSNum → JSNum → Bool
  | some a, some b => a < b
  | _, _ => false

/-- The spec's notion used to state C2: `q` is the second-smallest
distinct Silver rate of the rate set `s` when it is one of the rates and
exactly one of the (distinct) rates is strictly smaller. -/
def isSecondSmallestRate (s : List JSNum) (q : ℚ) : Prop :=
  some q ∈ s ∧ (s.filter (fun x => ltJS x (some q))).length = 1

/-- The spec's formatting condition: the string is a decimal with exactly
two fraction digits — it ends in a point followed by two digit characters. -/
def twoFracDigits (str : String) : Prop :=
  ∃ w d₁ d₂, str = w ++ "." ++ String.mk [d₁, d₂] ∧ d₁.isDigit ∧ d₂.isDigit

/-! ### Association-list lemmas -/

theorem getEntries_setEntries {α : Type} (l : List (String × α)) (k k' : String) (v : α) :
    getEntries (setEntries l k v) k' = if k = k' then some v else getEntries l k' := by
  induction l with
  | nil => simp [setEntries, getEntries]
  | cons e es ih =>
    by_cases h : e.1 = k
    · by_cases h' : k = k'
      · subst h'; simp [setEntries, getEntries, h]
      · simp [setEntries, getEntries, h, h']
    · by_cases h' : e.1 = k'
      · have hk : ¬ k = k' := fun he => h (by rw [h', he])
        have hk2 : ¬ k' = k := fun he => hk he.symm
        simp [setEntries, getEntries, h, h', hk, hk2]
      · simp [setEntries, getEntries, h, h', ih]

theorem JSObject.get_set {α : Type} (o : JSObject α) (k k' : String) (v : α) :
    (o.set k v).get k' = if k = k' then some v else o.get k' :=
  getEntries_setEntries o.entries k k' v

theorem setEntries_of_get_eq {α : Type} (l : List (String × α)) (k : String) (v : α)
    (h : getEntries l k = some v) : setEntries l k v = l := by
  induction l with
  | nil => simp [getEntries] at h
  | cons e es ih =>
    by_cases he : e.1 = k
    · simp only [getEntries, if_pos he] at h
      cases e
      simp_all [setEntries]
    · simp only [getEntries, if_neg he] at h
      simp [setEntries, he, ih h]

theorem JSObject.set_of_get_eq {α : Type} (o : JSObject α) (k : String) (v : α)
    (h : o.get k = some v) : o.set k v = o := by
  cases o
  exact congrArg JSObject.mk (setEntries_of_get_eq _ k v h)

theorem getEntries_map_value {α β : Type} (f : α → β) (l : List (String × α)) (k : String) :
    getEntries (l.map (fun e => (e.1, f e.2))) k = (getEntries l k).map f := by
  induction l with
  | nil => rfl
  | cons e es ih => by_cases h : e.1 = k <;> simp [getEntries, h, ih]

theorem get_preprocessPlanRates (d : JSObject (List JSNum)) (k : String) :
    (preprocessPlanRates d).get k = (d.get k).map sortRates :=
  getEntries_map_value sortRates d.entries k

/-! ### Set lemmas -/

theorem mem_setAdd {β : Type} [DecidableEq β] {s : List β} {v x : β} :
    x ∈ setAdd s v ↔ x ∈ s ∨ x = v := by
  unfold setAdd; split
  · constructor
    · exact Or.inl
    · rintro (h | rfl) <;> assumption
  · simp

theorem nodup_setAdd {β : Type} [DecidableEq β] {s : List β} (v : β) (h : s.Nodup) :
    (setAdd s v).Nodup := by
  unfold setAdd; split
  · exact h
  · next hv => simp [List.nodup_append, h, hv]

theorem setAdd_of_mem {β : Type} [DecidableEq β] {s : List β} {v : β} (h : v ∈ s) :
    setAdd s v = s := by
  unfold setAdd; exact if_pos h

/-! ### Sorting lemmas -/

theorem mem_insertRate {a x : JSNum} {l : List JSNum} :
    x ∈ insertRate a l ↔ x = a ∨ x ∈ l := by
  induction l with
  | nil => simp [insertRate]
  | cons b bs ih =>
    unfold insertRate
    split
    · simp
    · simp [ih]; tauto

theorem perm_insertRate (a : JSNum) (l : List JSNum) :
    List.Perm (insertRate a l) (a :: l) := by
  induction l with
  | nil => exact List.Perm.refl _
  | cons b bs ih =>
    unfold insertRate
    split
    · exact List.Perm.refl _
    · exact List.Perm.trans (List.Perm.cons b ih) (List.Perm.swap a b bs)

theorem perm_sortRates (l : List JSNum) : List.Perm (sortRates l) l := by
  induction l with
  | nil => exact List.Perm.refl _
  | cons a as ih =>
    exact List.Perm.trans (perm_insertRate a (sortRates as)) (List.Perm.cons a ih)

theorem mem_sortRates {x : JSNum} {l : List JSNum} : x ∈ sortRates l ↔ x ∈ l :=
  (perm_sortRates l).mem_iff

theorem insertRate_map_some (q : ℚ) (l : List ℚ) :
    insertRate (some q) (l.map some) = (List.orderedInsert (· ≤ ·) q l).map some := by
  induction l with
  | nil => rfl
  | cons b bs ih =>
    by_cases h : q ≤ b
    · simp [insertRate, List.orderedInsert, leJS, h]
    · simp [insertRate, List.orderedInsert, leJS, h, ih]

theorem sortRates_map_some (l : List ℚ) :
    sortRates (l.map some) = (List.insertionSort (· ≤ ·) l).map some := by
  induction l with
  | nil => rfl
  | cons a as ih =>
    simp only [List.map_cons, sortRates, List.insertionSort, ih, insertRate_map_some]

theorem exists_map_some_of_ne_none (s : List JSNum) (h : ∀ x ∈ s, x ≠ none) :
    ∃ qs : List ℚ, s = qs.map some := by
  induction s with
  | nil => exact ⟨[], rfl⟩
  | cons x xs ih =>
    obtain ⟨qs, hqs⟩ := ih (fun y hy => h y (List.mem_cons_of_mem x hy))
    cases x with
    | none => exact absurd rfl (h none (List.mem_cons_self _ _))
    | some q => exact ⟨q :: qs, by simp [hqs]⟩

/-! ### The rate-area index holds duplicate-free sets -/

theorem nodup_foldl_planStep (rows : List PlanRow) (data : JSObject (List JSNum))
    (hdata : ∀ k s, data.get k = some s → s.Nodup) :
    ∀ k s, (rows.foldl planStep data).get k = some s → s.Nodup := by
  induction rows generalizing data with
  | nil => exact hdata
  | cons r rs ih =>
    refine ih (planStep data r) ?_
    intro k s hks
    unfold planStep at hks
    split at hks
    · rw [JSObject.get_set] at hks
      split at hks
      · cases hks
        cases h0 : JSObject.get data (jsIntKey (parseIntJS r.rate_area)) with
        | none => exact nodup_setAdd _ (by simp)
        | some s0 => exact nodup_setAdd _ (by simpa using hdata _ _ h0)
      · exact hdata k s hks
    · exact hdata k s hks

theorem nodup_parsePlans (rows : List PlanRow) (k : String) (s : List JSNum)
    (h : (parsePlans rows).get k = some s) : s.Nodup :=
  nodup_foldl_planStep rows emptyObj
    (fun _ _ h0 => by simp [JSObject.get, emptyObj, getEntries] at h0) k s h

/-! ### Formatting lemmas -/

theorem digitChar_isDigit (d : ℕ) (h : d < 10) : (Nat.digitChar d).isDigit = true := by
  interval_cases d <;> decide

theorem twoFracDigits_of_pad2 (w : String) (m : ℕ) : twoFracDigits (w ++ "." ++ pad2 m) :=
  ⟨w, _, _, rfl, digitChar_isDigit _ (Nat.mod_lt _ (by norm_num)),
    digitChar_isDigit _ (Nat.mod_lt _ (by norm_num))⟩

theorem twoFracDigits_append (p s : String) (h : twoFracDigits s) :
    twoFracDigits (p ++ s) := by
  obtain ⟨w, d₁, d₂, rfl, h1, h2⟩ := h
  exact ⟨p ++ w, d₁, d₂, by simp [String.append_assoc], h1, h2⟩

theorem twoFracDigits_toFixedAbs (n d : ℕ) : twoFracDigits (toFixedAbs n d) :=
  twoFracDigits_of_pad2 _ _

theorem twoFracDigits_toFixed2 (q : ℚ) : twoFracDigits (toFixed2 (some q)) := by
  show twoFracDigits (if q.num < 0 then _ else _)
  split
  · exact twoFracDigits_append "-" _ (twoFracDigits_toFixedAbs _ _)
  · exact twoFracDigits_toFixedAbs _ _

theorem ltJS_some_some (a b : ℚ) : ltJS (some a) (some b) = decide (a < b) := rfl

theorem filter_ltJS_map_some (qs : List ℚ) (q : ℚ) :
    (qs.map some).filter (fun x => ltJS x (some q)) =
      (qs.filter (fun a => decide (a < q))).map some := by
  induction qs with
  | nil => rfl
  | cons a as ih =>
    simp only [List.map_cons, List.filter_cons, ltJS_some_some]
    by_cases h : a < q <;> simp [h, ih]

theorem second_smallest_of_sorted (qs : List ℚ) (hnd : qs.Nodup) (hlen : 2 ≤ qs.length) :
    ∃ q₀ q₁ rest, List.insertionSort (fun a b => a ≤ b) qs = q₀ :: q₁ :: rest ∧
      q₁ ∈ qs ∧ (qs.filter (fun x => decide (x < q₁))).length = 1 := by
  have hperm := List.perm_insertionSort (fun a b => a ≤ b) qs
  have hsorted : List.Sorted (fun a b => a ≤ b) (List.insertionSort (fun a b => a ≤ b) qs) :=
    List.sorted_insertionSort _ qs
  have hnd' : (List.insertionSort (fun a b => a ≤ b) qs).Nodup := hperm.nodup_iff.mpr hnd
  have hlt : List.Sorted (fun a b => a < b) (List.insertionSort (fun a b => a ≤ b) qs) :=
    List.Sorted.lt_of_le hsorted hnd'
  have hlen' : 2 ≤ (List.insertionSort (fun a b => a ≤ b) qs).length := by
    rw [hperm.length_eq]; exact hlen
  obtain ⟨q₀, t, ht⟩ : ∃ a t, List.insertionSort (fun a b => a ≤ b) qs = a :: t := by
    cases h : List.insertionSort (fun a b => a ≤ b) qs with
    | nil => rw [h] at hlen'; simp at hlen'
    | cons a t => exact ⟨a, t, rfl⟩
  obtain ⟨q₁, rest, rfl⟩ : ∃ b rest, t = b :: rest := by
    cases t with
    | nil => rw [ht] at hlen'; simp at hlen'
    | cons b rest => exact ⟨b, rest, rfl⟩
  rw [ht] at hlt hperm
  have h01 : q₀ < q₁ := (List.sorted_cons.mp hlt).1 q₁ (List.mem_cons_self _ _)
  have hrest : ∀ b ∈ rest, q₁ < b := (List.sorted_cons.mp (List.sorted_cons.mp hlt).2).1
  refine ⟨q₀, q₁, rest, ht, ?_, ?_⟩
  · exact hperm.mem_iff.mp (List.mem_cons_of_mem _ (List.mem_cons_self _ _))
  · have hfeq := (hperm.symm.filter (fun x => decide (x < q₁))).length_eq
    rw [hfeq]
    have hnil : rest.filter (fun x => decide (x < q₁)) = [] := by
      rw [List.filter_eq_nil_iff]
      intro b hb
      simpa using not_lt.mpr (le_of_lt (hrest b hb))
    simp [List.filter_cons, h01, hnil]

/-! ### The claims -/

/-- C3: for every request ZIP code that maps to zero rate areas in the
ZIP locality index (including a ZIP absent from the index) or to two or
more rate areas, the resolution is unresolved (the `-1` sentinel, an
empty rate field), regardless of the contents of the plan data. -/
theorem C3_not_one_rate_area_unresolved (planData : JSObject (List JSNum))
    (zipData : JSObject (List JSInt)) (zipcode : String)
    (h : ((zipData.get zipcode).getD []).length ≠ 1) :
    resolveZip planData zipData zipcode = none := by
  unfold resolveZip
  cases hz : zipData.get zipcode with
  | none => rfl
  | some l =>
    rw [hz] at h
    simp only [Option.getD_some] at h
    rcases l with _ | ⟨a, _ | ⟨b, t⟩⟩
    · rfl
    · simp at h
    · rfl

/-- C3 witness: a ZIP absent from the index and a ZIP with two rate
areas both resolve to the sentinel, whatever the plan data holds. -/
theorem C3_witness :
    resolveZip (parsePlans [⟨"Silver", "100.00", "1"⟩, ⟨"Silver", "200.00", "1"⟩])
        (parseZips [⟨"10001", "1"⟩, ⟨"10001", "2"⟩]) "10001" = none ∧
      resolveZip (parsePlans [⟨"Silver", "100.00", "1"⟩])
        (parseZips [⟨"10001", "1"⟩]) "99999" = none :=
  ⟨C3_not_one_rate_area_unresolved _ _ _ (by decide),
    C3_not_one_rate_area_unresolved _ _ _ (by decide)⟩

/-- C4: for every request ZIP code that maps to exactly one rate area,
if that rate area is absent from the rate area index or its rate array
has fewer than 2 entries (0 or 1 distinct Silver rates), the resolution
is unresolved. -/
theorem C4_few_rates_unresolved (planData : JSObject (List JSNum))
    (zipData : JSObject (List JSInt)) (zipcode : String) (area : JSInt)
    (h1 : zipData.get zipcode = some [area])
    (h2 : planData.get (jsIntKey area) = none ∨
      ∃ rates, planData.get (jsIntKey area) = some rates ∧ rates.length < 2) :
    resolveZip planData zipData zipcode = none := by
  have hstep : resolveZip planData zipData zipcode =
      match planData.get (jsIntKey area) with
      | some rates => if 1 < rates.length then some (toFixed2 (rates.getD 1 none)) else none
      | none => none := by
    unfold resolveZip; rw [h1]
  rw [hstep]
  rcases h2 with h2 | ⟨rates, h2, hlen⟩
  · rw [h2]
  · rw [h2]
    simp only [if_neg (by omega : ¬ 1 < rates.length)]

/-- C4 witness: a ZIP with one rate area that is missing from the plan
index, and one whose single rate area has only one distinct rate. -/
theorem C4_witness :
    resolveZip (preprocessPlanRates (parsePlans [⟨"Silver", "100.00", "7"⟩]))
        (parseZips [⟨"10001", "1"⟩]) "10001" = none ∧
      resolveZip (preprocessPlanRates (parsePlans [⟨"Silver", "250.00", "2"⟩, ⟨"Silver", "250.0", "2"⟩]))
        (parseZips [⟨"10001", "2"⟩]) "10001" = none :=
  ⟨C4_few_rates_unresolved _ _ _ (some 1) (by decide) (Or.inl (by decide)),
    C4_few_rates_unresolved _ _ _ (some 2) (by decide)
      (Or.inr ⟨[some 250], by decide, by decide⟩)⟩

/-- C10: for an empty request list the written output file consists of
exactly the header line and nothing else — no data rows and no trailing
newline. -/
theorem C10_empty_request_header_only (planData : JSObject (List JSNum))
    (zipData : JSObject (List JSInt)) :
    writeCSVFile (processSLCSP [] planData zipData) = "zipcode,rate" := rfl

/-- C9: the pipeline is deterministic — it is a pure function of the
three parsed inputs, so two runs on identical inputs produce identical
(byte-identical) outcomes. -/
theorem C9_deterministic (p p' : Except String (List PlanRow))
    (z z' : Except String (List ZipRow)) (s s' : Except String (List SlcspRow))
    (hp : p = p') (hz : z = z') (hs : s = s') :
    mainRun p z s = mainRun p' z' s' := by
  subst hp; subst hz; subst hs; rfl

/-- C9 witness: two runs on one concrete input triple coincide. -/
theorem C9_witness :
    mainRun (.ok [⟨"Silver", "100.00", "1"⟩]) (.ok [⟨"10001", "1"⟩]) (.ok [⟨"10001"⟩]) =
      mainRun (.ok [⟨"Silver", "100.00", "1"⟩]) (.ok [⟨"10001", "1"⟩]) (.ok [⟨"10001"⟩]) :=
  C9_deterministic _ _ _ _ _ _ rfl rfl rfl

/-- C7: if reading or parsing any of the three input files fails, the
run reports the failure on the error channel and aborts: no output file
content is ever produced. -/
theorem C7_read_failure_aborts (p : Except String (List PlanRow))
    (z : Except String (List ZipRow)) (s : Except String (List SlcspRow))
    (h : (∃ e, p = .error e) ∨ (∃ e, z = .error e) ∨ (∃ e, s = .error e)) :
    (∃ e, mainRun p z s = .errorLogged e) ∧ ∀ c, mainRun p z s ≠ .written c := by
  rcases p with e | pr
  · exact ⟨⟨e, rfl⟩, fun c hc => by simp [mainRun] at hc⟩
  rcases z with e | zr
  · exact ⟨⟨e, rfl⟩, fun c hc => by simp [mainRun] at hc⟩
  rcases s with e | sr
  · exact ⟨⟨e, rfl⟩, fun c hc => by simp [mainRun] at hc⟩
  rcases h with ⟨e, he⟩ | ⟨e, he⟩ | ⟨e, he⟩ <;> cases he

/-- C7 witness: a failing zips read aborts the run with the error
reported, and no output content exists. -/
theorem C7_witness :
    (∃ e, mainRun (.ok [⟨"Silver", "100.00", "1"⟩]) (.error "ENOENT") (.ok [⟨"10001"⟩]) =
        .errorLogged e) ∧
      ∀ c, mainRun (.ok [⟨"Silver", "100.00", "1"⟩]) (.error "ENOENT") (.ok [⟨"10001"⟩]) ≠
        .written c :=
  C7_read_failure_aborts _ _ _ (Or.inr (Or.inl ⟨"ENOENT", rfl⟩))

/-- C5: rate deduplication is by exact parsed numeric value, not by rate
text: appending a second Silver row for the same rate area whose rate
text parses to the same number leaves the whole rate-area index
unchanged, so the value counts once for ranking. -/
theorem C5_numeric_value_dedup (rows : List PlanRow) (r1 r2 : PlanRow) (q : ℚ)
    (h1 : r1.metal_level = "Silver") (h2 : r2.metal_level = "Silver")
    (ha : parseIntJS r2.rate_area = parseIntJS r1.rate_area)
    (hq1 : parseFloatJS r1.rate = some q) (hq2 : parseFloatJS r2.rate = some q) :
    parsePlans (rows ++ [r1, r2]) = parsePlans (rows ++ [r1]) := by
  unfold parsePlans
  rw [List.foldl_append, List.foldl_append]
  simp only [List.foldl_cons, List.foldl_nil]
  generalize List.foldl planStep emptyObj rows = D
  simp only [planStep, h1, h2, reduceIte]
  rw [ha, hq1, hq2]
  rw [JSObject.get_set, if_pos rfl, Option.getD_some]
  rw [setAdd_of_mem (mem_setAdd.mpr (Or.inr rfl))]
  exact JSObject.set_of_get_eq _ _ _ (by rw [JSObject.get_set, if_pos rfl])

/-- C5 witness: "100.00" and "100.0" parse to the same number, so the
second Silver row changes nothing in the index. -/
theorem C5_witness :
    parsePlans [⟨"Silver", "100.00", "1"⟩, ⟨"Silver", "100.0", "1"⟩] =
      parsePlans [⟨"Silver", "100.00", "1"⟩] :=
  C5_numeric_value_dedup [] ⟨"Silver", "100.00", "1"⟩ ⟨"Silver", "100.0", "1"⟩ 100
    rfl rfl rfl (by decide) (by decide)

theorem keys_foldl_planStep (rows : List PlanRow) (data : JSObject (List JSNum)) (k : String)
    (h : ((rows.foldl planStep data).get k).isSome) :
    (data.get k).isSome ∨
      ∃ p ∈ rows, p.metal_level = "Silver" ∧ jsIntKey (parseIntJS p.rate_area) = k := by
  induction rows generalizing data with
  | nil => exact Or.inl h
  | cons r rs ih =>
    rcases ih (planStep data r) h with h' | ⟨p, hp, hs, hk⟩
    · by_cases hsil : r.metal_level = "Silver"
      · simp only [planStep, hsil, reduceIte, JSObject.get_set] at h'
        by_cases hkey : jsIntKey (parseIntJS r.rate_area) = k
        · exact Or.inr ⟨r, List.mem_cons_self r rs, hsil, hkey⟩
        · rw [if_neg hkey] at h'
          exact Or.inl h'
      · simp only [planStep, if_neg hsil] at h'
        exact Or.inl h'
    · exact Or.inr ⟨p, List.mem_cons_of_mem r hp, hs, hk⟩

/-- C6: the rate-area index builder keeps only plans whose metal level
is exactly the string "Silver": every key of the built index comes from
at least one Silver record with that rate-area key, and a record with
any other metal level (such as "silver" or "Gold") leaves the index
untouched wherever it appears in the input. -/
theorem C6_silver_only (rows rows₁ rows₂ : List PlanRow) (r : PlanRow)
    (hr : r.metal_level ≠ "Silver") :
    (∀ k, ((parsePlans rows).get k).isSome →
        ∃ p ∈ rows, p.metal_level = "Silver" ∧ jsIntKey (parseIntJS p.rate_area) = k) ∧
      parsePlans (rows₁ ++ r :: rows₂) = parsePlans (rows₁ ++ rows₂) := by
  constructor
  · intro k hk
    rcases keys_foldl_planStep rows emptyObj k hk with h | h
    · simp [emptyObj, JSObject.get, getEntries] at h
    · exact h
  · unfold parsePlans
    rw [List.foldl_append, List.foldl_append, List.foldl_cons]
    simp only [planStep, if_neg hr]

/-- C6 witness: with one Silver row, one lowercase "silver" row and one
"Gold" row, the index has the Silver key (with a Silver source row) and
dropping the "Gold" row changes nothing. -/
theorem C6_witness :
    (∀ k, ((parsePlans [⟨"Silver", "100.00", "1"⟩]).get k).isSome →
        ∃ p ∈ [(⟨"Silver", "100.00", "1"⟩ : PlanRow)], p.metal_level = "Silver" ∧
          jsIntKey (parseIntJS p.rate_area) = k) ∧
      parsePlans ([⟨"Silver", "100.00", "1"⟩] ++ ⟨"Gold", "50.00", "2"⟩ :: [⟨"silver", "75.00", "3"⟩]) =
        parsePlans ([⟨"Silver", "100.00", "1"⟩] ++ [⟨"silver", "75.00", "3"⟩]) :=
  C6_silver_only [⟨"Silver", "100.00", "1"⟩] [⟨"Silver", "100.00", "1"⟩]
    [⟨"silver", "75.00", "3"⟩] ⟨"Gold", "50.00", "2"⟩ (by decide)

/-- C8: a Silver plan row is folded into the index whatever its rate or
rate-area text parses to: the (possibly NaN) parsed rate is accepted
without any error and is a member of the sorted rate sequence stored
under the (possibly "NaN") key — invalid values propagate downstream. -/
theorem C8_nan_accepted (rows : List PlanRow) (r : PlanRow)
    (h1 : r.metal_level = "Silver") :
    ∃ s, (preprocessPlanRates (parsePlans (rows ++ [r]))).get
        (jsIntKey (parseIntJS r.rate_area)) = some s ∧ parseFloatJS r.rate ∈ s := by
  have hsplit : parsePlans (rows ++ [r]) = planStep (parsePlans rows) r := by
    unfold parsePlans
    rw [List.foldl_append, List.foldl_cons, List.foldl_nil]
  have hstep : (planStep (parsePlans rows) r).get (jsIntKey (parseIntJS r.rate_area)) =
      some (setAdd (((parsePlans rows).get (jsIntKey (parseIntJS r.rate_area))).getD [])
        (parseFloatJS r.rate)) := by
    simp only [planStep, h1, reduceIte, JSObject.get_set, if_pos rfl]
  refine ⟨sortRates (setAdd (((parsePlans rows).get (jsIntKey (parseIntJS r.rate_area))).getD [])
    (parseFloatJS r.rate)), ?_, ?_⟩
  · rw [hsplit, get_preprocessPlanRates, hstep]; rfl
  · rw [mem_sortRates]
    exact mem_setAdd.mpr (Or.inr rfl)

/-- C8 witness: a Silver row whose rate text "abc" and rate-area text
"xyz" are non-numeric lands NaN in the sorted sequence under key "NaN". -/
theorem C8_witness :
    ∃ s, (preprocessPlanRates (parsePlans [⟨"Silver", "abc", "xyz"⟩])).get "NaN" = some s ∧
      (none : JSNum) ∈ s := by
  have h := C8_nan_accepted [] ⟨"Silver", "abc", "xyz"⟩ rfl
  rw [show jsIntKey (parseIntJS "xyz") = "NaN" from by decide,
    show parseFloatJS "abc" = (none : JSNum) from by decide] at h
  exact h

theorem resolveZip_eq (planData : JSObject (List JSNum)) (zipData : JSObject (List JSInt))
    (zipcode : String) (area : JSInt) (rates : List JSNum)
    (hz : zipData.get zipcode = some [area])
    (hp : planData.get (jsIntKey area) = some rates) :
    resolveZip planData zipData zipcode =
      if 1 < rates.length then some (toFixed2 (rates.getD 1 none)) else none := by
  unfold resolveZip
  rw [hz]
  show (match planData.get (jsIntKey area) with
    | some r => if 1 < r.length then some (toFixed2 (r.getD 1 none)) else none
    | none => none) = _
  rw [hp]

/-- C2: for every request ZIP code that maps to exactly one rate area
whose set of distinct Silver rates has at least 2 (all numeric)
elements, the resolved value is the second-smallest distinct Silver rate
of that area, formatted as a decimal string with exactly 2 fraction
digits. -/
theorem C2_second_smallest_two_digits (planRows : List PlanRow)
    (zipData : JSObject (List JSInt)) (zipcode : String) (area : JSInt) (s : List JSNum)
    (h1 : zipData.get zipcode = some [area])
    (h2 : (parsePlans planRows).get (jsIntKey area) = some s)
    (h3 : 2 ≤ s.length) (h4 : ∀ x ∈ s, x ≠ none) :
    ∃ q, isSecondSmallestRate s q ∧
      resolveZip (preprocessPlanRates (parsePlans planRows)) zipData zipcode =
        some (toFixed2 (some q)) ∧ twoFracDigits (toFixed2 (some q)) := by
  obtain ⟨qs, rfl⟩ := exists_map_some_of_ne_none s h4
  have hnd : qs.Nodup := List.Nodup.of_map some (nodup_parsePlans planRows _ _ h2)
  have hlen : 2 ≤ qs.length := by simpa using h3
  obtain ⟨q₀, q₁, rest, hsort, hmem, hfilter⟩ := second_smallest_of_sorted qs hnd hlen
  have hsr : sortRates (qs.map some) = some q₀ :: some q₁ :: rest.map some := by
    rw [sortRates_map_some, hsort]; rfl
  refine ⟨q₁, ⟨List.mem_map_of_mem some hmem, ?_⟩, ?_, twoFracDigits_toFixed2 q₁⟩
  · rw [filter_ltJS_map_some]
    simp [hfilter]
  · rw [resolveZip_eq _ _ _ area (sortRates (qs.map some)) h1
      (by rw [get_preprocessPlanRates, h2]; rfl)]
    rw [hsr, if_pos (by simp only [List.length_cons]; omega)]
    rfl

/-- C2 witness: rate area 7 with Silver rates 200.00, 150.00, 150.00,
300.00 has distinct sorted rates [150, 200, 300]; a ZIP mapped solely to
area 7 resolves to the second-smallest, formatted "200.00". -/
theorem C2_witness :
    ∃ q, isSecondSmallestRate [some 200, some 150, some 300] q ∧
      resolveZip
        (preprocessPlanRates (parsePlans
          [⟨"Silver", "200.00", "7"⟩, ⟨"Silver", "150.00", "7"⟩,
            ⟨"Silver", "150.00", "7"⟩, ⟨"Silver", "300.00", "7"⟩]))
        (parseZips [⟨"10001", "7"⟩]) "10001" = some (toFixed2 (some q)) ∧
      twoFracDigits (toFixed2 (some q)) :=
  C2_second_smallest_two_digits
    [⟨"Silver", "200.00", "7"⟩, ⟨"Silver", "150.00", "7"⟩,
      ⟨"Silver", "150.00", "7"⟩, ⟨"Silver", "300.00", "7"⟩]
    (parseZips [⟨"10001", "7"⟩]) "10001" (some 7) [some 200, some 150, some 300]
    (by decide) (by decide) (by decide) (by decide)

/-- C1 (failing input): the request lists "10001" twice, yet the written
file holds a single data row for it — `processSLCSP` stores results in
an object keyed by zipcode, so repeated request rows collapse — while
the per-row console log does answer both rows.  (The same object keying
also emits integer-like zipcodes in ascending numeric order rather than
request order.) -/
theorem C1_duplicate_request_collapses :
    mainRun (.ok [⟨"Silver", "100.00", "1"⟩, ⟨"Silver", "200.00", "1"⟩])
        (.ok [⟨"10001", "1"⟩]) (.ok [⟨"10001"⟩, ⟨"10001"⟩]) =
        .written "zipcode,rate\n10001,200.00" ∧
      ("zipcode,rate\n10001,200.00".data.filter (fun c => c = '\n')).length = 1 ∧
      (slcspLogLines [⟨"10001"⟩, ⟨"10001"⟩]
        (preprocessPlanRates (parsePlans
          [⟨"Silver", "100.00", "1"⟩, ⟨"Silver", "200.00", "1"⟩]))
        (parseZips [⟨"10001", "1"⟩])).length = 1 + 2 := by decide
